import Mathlib

/-!
Verification development for the niauth-js repository (an SRP-6a style
authentication client).  JavaScript numbers backed by jsbn BigIntegers are
embedded as `Nat` (all protocol quantities are nonnegative); byte arrays are
`List Int` because jsbn's `toByteArray` yields signed bytes; thrown JS values
are embedded as `Except JSError`.  The SHA-1 digest (lib/SHA1.js, an external
capability per the spec) is kept abstract as a function parameter.
-/

/-- Error kinds thrown by the JavaScript code, named after the spec's error
taxonomy.  `TypeError` stands for the host-language error raised when a
property of `undefined` is read. -/
inductive JSError where
  | InvalidArgumentError
  | FormatError
  | MissingParamsError
  | IndexError
  | TypeError
  | PrecheckFailedError
  | IncompleteServerInfoError
  | AuthenticationFailedError
  | UnknownStatusError
  | TruncationError
  | LengthMismatchError
  deriving DecidableEq, Repr

/-- Input to the SHA-1 digest: the JS function accepts either a byte array or
a plain string. -/
inductive JSData where
  | bytes (l : List Int)
  | str (s : String)

/-- Decidable equality for `Except`, needed to evaluate concrete runs of the
embedded fallible functions. -/
instance {e a : Type} [DecidableEq e] [DecidableEq a] : DecidableEq (Except e a) := fun x y =>
  match x, y with
  | .ok u, .ok w => if h : u = w then .isTrue (by rw [h]) else .isFalse (by simp [h])
  | .error u, .error w => if h : u = w then .isTrue (by rw [h]) else .isFalse (by simp [h])
  | .ok _, .error _ => .isFalse (by simp)
  | .error _, .ok _ => .isFalse (by simp)

/-- Big-endian base-256 digits of a natural number, fuelled so that the
definition reduces in the kernel.  `natDigitsAux fuel n` for `n ≤ fuel`. -/
def natDigitsAux : Nat → Nat → List Nat
  | _, 0 => []
  | 0, _ + 1 => []
  | fuel + 1, n + 1 => natDigitsAux fuel ((n + 1) / 256) ++ [(n + 1) % 256]

/-- Minimal big-endian base-256 digits of `n` (empty for 0). -/
def natDigits (n : Nat) : List Nat := natDigitsAux n n

/-- Natural byte length of an integer: the number of its base-256 digits. -/
def natByteLength (n : Nat) : Nat := (natDigits n).length

/-- jsbn stores bytes as signed values: a digit with the high bit set comes
out of `toByteArray` as a negative number. -/
def sgnByte (d : Nat) : Int := if 128 ≤ d then (d : Int) - 256 else (d : Int)

/-- jsbn `BigInteger.toByteArray` for a nonnegative integer: minimal
big-endian two's-complement bytes, so a leading `0` is inserted when the top
digit has its high bit set, and `0` maps to `[0]`. -/
def toByteArray (n : Nat) : List Int :=
  match natDigits n with
  | [] => [0]
  | d :: ds => (if 128 ≤ d then [0] else []) ++ (d :: ds).map sgnByte

/-- Big-endian value of a signed byte array, each byte masked with `& 0xFF`
as the JS code does when it reads bytes back. -/
def bytesToNatI (l : List Int) : Nat :=
  l.foldl (fun acc b => acc * 256 + (b % 256).toNat) 0

/-- Big-endian value of an unsigned digit list. -/
def digitsVal (l : List Nat) : Nat := l.foldl (fun acc d => acc * 256 + d) 0

/-- lib/Utils.js `bigIntegerToBytes(bi, byteCount)`: fixed-width big-endian
encoding; shorter representations are left-padded with zero bytes, longer
ones may only drop leading zero bytes, otherwise the call throws. -/
def bigIntegerToBytes (bi : Nat) (byteCount : Nat) : Except JSError (List Int) :=
  let bytes := toByteArray bi
  if bytes.length = byteCount then
    .ok bytes
  else if bytes.length < byteCount then
    .ok (List.replicate (byteCount - bytes.length) 0 ++ bytes)
  else
    let leaders := bytes.take (bytes.length - byteCount)
    if leaders.all (· == 0) then .ok (bytes.drop (bytes.length - byteCount))
    else .error JSError.TruncationError

/-- Value of a hexadecimal digit character, `none` for non-hex characters. -/
def hexVal (c : Char) : Option Nat :=
  if 48 ≤ c.toNat ∧ c.toNat ≤ 57 then some (c.toNat - 48)
  else if 97 ≤ c.toNat ∧ c.toNat ≤ 102 then some (c.toNat - 87)
  else if 65 ≤ c.toNat ∧ c.toNat ≤ 70 then some (c.toNat - 55)
  else none

/-- jsbn `new BigInteger(str, 16)`: hexadecimal parse that skips characters
it does not recognize. -/
def hexToNat (s : String) : Nat :=
  s.data.foldl (fun acc c => match hexVal c with | some v => acc * 16 + v | none => acc) 0

/-- Lowercase hexadecimal digit character for a value below 16. -/
def hexChar (d : Nat) : Char :=
  if d < 10 then Char.ofNat (48 + d) else Char.ofNat (87 + d)

/-- Hex digits of `n` (empty for 0), fuelled for kernel reduction. -/
def natToHexAux : Nat → Nat → List Char
  | _, 0 => []
  | 0, _ + 1 => []
  | fuel + 1, n + 1 => natToHexAux fuel ((n + 1) / 16) ++ [hexChar ((n + 1) % 16)]

/-- JS `Number.prototype.toString(16)` for a nonnegative integer. -/
def natToHex (n : Nat) : String :=
  if n = 0 then "0" else ⟨natToHexAux n n⟩

/-- JS `('00' + v.toString(16)).substr(-2)`: last two characters. -/
def hex2 (v : Nat) : List Char :=
  let l := "00".data ++ (natToHex v).data
  l.drop (l.length - 2)

/-- JS `('0000' + v.toString(16)).substr(-4)`: last four characters. -/
def hex4 (v : Nat) : List Char :=
  let l := "0000".data ++ (natToHex v).data
  l.drop (l.length - 4)

/-- JS `parseInt(chunk, 16)`: value of the longest hex-digit prefix, `none`
(NaN) when the chunk does not start with a hex digit. -/
def parseIntHexJS (l : List Char) : Option Nat :=
  match l with
  | [] => none
  | c :: _ =>
    if (hexVal c).isSome then
      some ((l.takeWhile (fun d => (hexVal d).isSome)).foldl
        (fun acc d => acc * 16 + (hexVal d).getD 0) 0)
    else none

/-- JS `parseInt(str, 10)`: optional sign followed by the longest decimal
digit prefix; `none` (NaN) if no digit follows. -/
def parseIntDecJS (s : String) : Option Int :=
  let core : List Char → Option Nat := fun l =>
    match l with
    | [] => none
    | c :: _ =>
      if c.isDigit then
        some ((l.takeWhile Char.isDigit).foldl (fun acc d => acc * 10 + (d.toNat - 48)) 0)
      else none
  match s.data with
  | '-' :: rest => (core rest).map (fun n => -(n : Int))
  | '+' :: rest => (core rest).map (fun n => (n : Int))
  | l => (core l).map (fun n => (n : Int))

/-- lib/Utils.js `hashStringToByteArray`: split a hex string into two-char
chunks and parse each chunk.  A chunk with no hex digit (never produced by a
real digest) would be NaN in JS; it is embedded as `0`. -/
def hashStringToByteArrayAux : List Char → List Int
  | [] => []
  | [a] => [((parseIntHexJS [a]).getD 0 : Int)]
  | a :: b :: rest => ((parseIntHexJS [a, b]).getD 0 : Int) :: hashStringToByteArrayAux rest

/-- lib/Utils.js `hashStringToByteArray(str)`. -/
def hashStringToByteArray (str : String) : List Int :=
  hashStringToByteArrayAux str.data

/-- lib/Utils.js `xorHashStrings` inner loop: XOR four-character (16-bit)
chunks of the two strings; a NaN chunk is coerced to 0 by the JS `^`
operator. -/
def xorChunks : List Char → List Char → List Char
  | [], _ => []
  | a1 :: a2 :: a3 :: a4 :: ar, b =>
    hex4 (((parseIntHexJS [a1, a2, a3, a4]).getD 0) ^^^ ((parseIntHexJS (b.take 4)).getD 0))
      ++ xorChunks ar (b.drop 4)
  | [a1], b => hex4 (((parseIntHexJS [a1]).getD 0) ^^^ ((parseIntHexJS (b.take 4)).getD 0))
  | [a1, a2], b =>
    hex4 (((parseIntHexJS [a1, a2]).getD 0) ^^^ ((parseIntHexJS (b.take 4)).getD 0))
  | [a1, a2, a3], b =>
    hex4 (((parseIntHexJS [a1, a2, a3]).getD 0) ^^^ ((parseIntHexJS (b.take 4)).getD 0))

/-- lib/Utils.js `xorHashStrings(a, b)`: throws when the lengths differ,
otherwise XORs 16 bits at a time. -/
def xorHashStrings (a b : String) : Except JSError String :=
  if a.length ≠ b.length then .error JSError.LengthMismatchError
  else .ok ⟨xorChunks a.data b.data⟩

/-- Value of a standard Base64 alphabet character. -/
def b64val (c : Char) : Option Nat :=
  if 65 ≤ c.toNat ∧ c.toNat ≤ 90 then some (c.toNat - 65)
  else if 97 ≤ c.toNat ∧ c.toNat ≤ 122 then some (c.toNat - 71)
  else if 48 ≤ c.toNat ∧ c.toNat ≤ 57 then some (c.toNat + 4)
  else if c = '+' then some 62
  else if c = '/' then some 63
  else none

/-- Left-pad the digits of `n` with zeros to exactly `len` bytes. -/
def natToBytesFixed (n len : Nat) : List Nat :=
  List.replicate (len - (natDigits n).length) 0 ++ natDigits n

/-- lib/Base64.js `decode` (Node `Buffer(str, 'base64')`): ignore non-alphabet
characters, read the remaining characters as 6-bit groups and keep the whole
bytes. -/
def base64Decode (s : String) : List Nat :=
  let vs := s.data.filterMap b64val
  let nbits := 6 * vs.length
  let total := vs.foldl (fun acc v => acc * 64 + v) 0
  natToBytesFixed (total / 2 ^ (nbits % 8)) (nbits / 8)

/-- lib/Utils.js `b64tohex(b64str)`: Base64-decode and print each byte as two
lowercase hex characters. -/
def b64tohex (s : String) : String :=
  ⟨(base64Decode s).foldl (fun acc b => acc ++ hex2 b) []⟩

/-- JS `str.split(sep)` for a one-character separator. -/
def splitOnChar (sep : Char) (l : List Char) : List (List Char) :=
  l.foldr
    (fun c acc =>
      match acc with
      | [] => [[c]]
      | h :: t => if c = sep then [] :: h :: t else (c :: h) :: t)
    [[]]

/-- lib/Utils.js / index.js `splitParamsString(str)`: comma-separated
`key=value` segments; only the first `=` of a segment delimits, a segment
without `=` throws. -/
def splitParamsString (str : String) : Except JSError (List (String × String)) :=
  (splitOnChar ',' str.data).mapM (fun seg =>
    let name := seg.takeWhile (fun c => c ≠ '=')
    if name.length = seg.length then .error JSError.FormatError
    else .ok ((⟨name⟩ : String), (⟨seg.drop (name.length + 1)⟩ : String)))

/-- JS object field read for the assoc list built by `splitParamsString`
(later assignments overwrite earlier ones). -/
def getParam (ps : List (String × String)) (k : String) : String :=
  ((ps.reverse.find? (fun p => p.1 == k)).map Prod.snd).getD ""

/-- JS `hasOwnProperty` for the same assoc list. -/
def hasParam (ps : List (String × String)) (k : String) : Bool :=
  (ps.find? (fun p => p.1 == k)).isSome

/-- JS `String.fromCharCode` for a single code point. -/
def fromCharCode (n : Nat) : String := String.singleton (Char.ofNat n)

/-- lib/Utils.js `byteStringToByteArray` loop: `for (i = 0; i < str.length;
++i) ar.push(String.fromCharCode(i))`. -/
def byteStringToByteArrayGo (s : String) (i : Nat) (ar : List String) : List String :=
  if i < s.length then byteStringToByteArrayGo s (i + 1) (ar ++ [fromCharCode i])
  else ar
termination_by s.length - i

/-- lib/Utils.js `byteStringToByteArray(str)`. -/
def byteStringToByteArray (s : String) : List String :=
  byteStringToByteArrayGo s 0 []

/-- Client-side view of one handshake (lib/SRP.js `Client`): identity plus
the fields stored by `setServerInfo`. -/
structure ClientState where
  username : String
  password : String
  modulus : Nat
  generator : Nat
  salt : List Int
  serverPublicKey : Nat
  deriving DecidableEq, Repr

/-- Server-side view of one handshake (lib/SRP.js `Server` fields stored by
`startLogin`). -/
structure ServerState where
  modulus : Nat
  generator : Nat
  salt : List Int
  serverPrivateKey : Nat
  serverPublicKey : Nat
  verifier : Nat
  deriving DecidableEq, Repr

/-- What `Server.startLogin` returns to be sent to the client. -/
structure Challenge where
  modulus : Nat
  generator : Nat
  salt : List Int
  serverPublicKey : Nat
  deriving DecidableEq, Repr

/-- What `Client.generatePublicKeyAndProof` returns. -/
structure ClientResult where
  clientPublicKey : Nat
  clientProof : String
  deriving DecidableEq, Repr

namespace SRP

variable (SHA1 : JSData → String)

/-- lib/SRP.js `MGF1SHA1(byteArray)`: concatenation of the digests of the
array extended with `[0,0,0,0]` and `[0,0,0,1]`. -/
def MGF1SHA1 (byteArray : List Int) : String :=
  SHA1 (.bytes (byteArray ++ [0, 0, 0, 0])) ++ SHA1 (.bytes (byteArray ++ [0, 0, 0, 1]))

/-- SRP.A: `g.modPow(a, N)`. -/
def A (N g a : Nat) : Nat := g ^ a % N

/-- SRP.v: `g.modPow(x, N)`, the password verifier. -/
def v (N g x : Nat) : Nat := g ^ x % N

/-- SRP.u: digest of the two public keys, each padded to 128 bytes, read back
as a hex integer. -/
def u (A B : Nat) : Except JSError Nat :=
  match bigIntegerToBytes A 128 with
  | .error e => .error e
  | .ok Ab =>
    match bigIntegerToBytes B 128 with
    | .error e => .error e
    | .ok Bb => .ok (hexToNat (SHA1 (.bytes (Ab ++ Bb))))

/-- SRP.k: digest of modulus and generator, each padded to 128 bytes, read
back as a hex integer. -/
def k (N g : Nat) : Except JSError Nat :=
  match bigIntegerToBytes N 128 with
  | .error e => .error e
  | .ok Nb =>
    match bigIntegerToBytes g 128 with
    | .error e => .error e
    | .ok gb => .ok (hexToNat (SHA1 (.bytes (Nb ++ gb))))

/-- SRP.B: `(k(N,g) * v + g.modPow(b, N)).mod(N)`. -/
def B (N g v b : Nat) : Except JSError Nat :=
  match k SHA1 N g with
  | .error e => .error e
  | .ok kv => .ok ((kv * v + g ^ b % N) % N)

/-- SRP.x: private key derived from salt, username and password. -/
def x (salt : List Int) (username password : String) : Nat :=
  hexToNat (SHA1 (.bytes (salt ++ hashStringToByteArray (SHA1 (.str (username ++ ":" ++ password))))))

/-- SRP.Sc: the client-side shared secret exactly as lib/SRP.js computes it:
`(B.add(k.multiply(N.subtract(g.modPow(x, N))).mod(N))).modPow(a.add(u.multiply(x)), N)`. -/
def Sc (N g B k x a u : Nat) : Nat :=
  (B + k * (N - g ^ x % N) % N) ^ (a + u * x) % N

/-- SRP.Ss: the server-side shared secret
`(A.multiply(v.modPow(u, N))).modPow(b, N)`. -/
def Ss (N A v u b : Nat) : Nat :=
  (A * (v ^ u % N)) ^ b % N

/-- SRP.K: the 40-byte session key, MGF1 stretch of the padded secret. -/
def K (S : Nat) : Except JSError (List Int) :=
  match bigIntegerToBytes S 128 with
  | .error e => .error e
  | .ok Sb => .ok (hashStringToByteArray (MGF1SHA1 SHA1 Sb))

/-- SRP.Mc: the client's proof of `K`. -/
def Mc (N g : Nat) (username : String) (salt : List Int) (A B : Nat) (K : List Int) :
    Except JSError String :=
  match bigIntegerToBytes N 128 with
  | .error e => .error e
  | .ok Nb =>
    match bigIntegerToBytes g 1 with
    | .error e => .error e
    | .ok gb =>
      match xorHashStrings (SHA1 (.bytes Nb)) (SHA1 (.bytes gb)) with
      | .error e => .error e
      | .ok xored =>
        let ret := hashStringToByteArray xored
        let shau := hashStringToByteArray (SHA1 (.str username))
        match bigIntegerToBytes A 128 with
        | .error e => .error e
        | .ok Ab =>
          match bigIntegerToBytes B 128 with
          | .error e => .error e
          | .ok Bb => .ok (SHA1 (.bytes (ret ++ shau ++ salt ++ Ab ++ Bb ++ K)))

/-- SRP.Ms: the server's proof `SHA(A + M + K)`. -/
def Ms (A : Nat) (M : String) (K : List Int) : Except JSError String :=
  let Mb := hashStringToByteArray M
  match bigIntegerToBytes A 128 with
  | .error e => .error e
  | .ok Ab => .ok (SHA1 (.bytes (Ab ++ Mb ++ K)))

/-- lib/SRP.js `Client.prototype.generatePublicKeyAndProof`, with the random
ephemeral secret `a` passed explicitly.  Returns the client result together
with the session key stored in `this.sharedKey`. -/
def genPKP (st : ClientState) (a : Nat) : Except JSError (ClientResult × List Int) :=
  if st.serverPublicKey % st.modulus = 0 then .error JSError.PrecheckFailedError else
  match u SHA1 (A st.modulus st.generator a) st.serverPublicKey with
  | .error e => .error e
  | .ok uval =>
    if uval = 0 then .error JSError.PrecheckFailedError else
    match k SHA1 st.modulus st.generator with
    | .error e => .error e
    | .ok kval =>
      if kval = 0 then .error JSError.PrecheckFailedError else
      match K SHA1 (Sc st.modulus st.generator st.serverPublicKey kval
          (x SHA1 st.salt st.username st.password) a uval) with
      | .error e => .error e
      | .ok Kval =>
        match Mc SHA1 st.modulus st.generator st.username st.salt
            (A st.modulus st.generator a) st.serverPublicKey Kval with
        | .error e => .error e
        | .ok Mval => .ok (⟨A st.modulus st.generator a, Mval⟩, Kval)

/-- lib/SRP.js `Server.prototype.startLogin`, with the looked-up verifier
record passed as the integers `N`, `g`, `v` and salt `s`, and the random
ephemeral secret `b` passed explicitly. -/
def startLogin (N g v : Nat) (s : List Int) (b : Nat) :
    Except JSError (ServerState × Challenge) :=
  match B SHA1 N g v b with
  | .error e => .error e
  | .ok Bv => .ok (⟨N, g, s, b, Bv, v⟩, ⟨N, g, s, Bv⟩)

/-- lib/SRP.js `Server.prototype.finishLogin`, taking the client's public key
and proof.  Returns the server proof together with the session key stored in
`this.sharedKey`. -/
def finishLogin (st : ServerState) (clientPublicKey : Nat) (clientProof : String) :
    Except JSError (String × List Int) :=
  match u SHA1 clientPublicKey st.serverPublicKey with
  | .error e => .error e
  | .ok uval =>
    if uval = 0 then .error JSError.PrecheckFailedError else
    match K SHA1 (Ss st.modulus clientPublicKey st.verifier uval st.serverPrivateKey) with
    | .error e => .error e
    | .ok Kval =>
      match Ms SHA1 clientPublicKey clientProof Kval with
      | .error e => .error e
      | .ok Mval => .ok (Mval, Kval)

end SRP

/-- The constant digest used to instantiate the handshake witnesses on a
small concrete group. -/
def SHA1c : JSData → String := fun _ => "01"

/-- Formalisation of the spec's formula for the client shared secret,
written exactly from the spec table: `(B − k·g^x mod N)^(a + u·x) mod N`,
read over the integers with the Euclidean remainder. -/
def S_client_spec (N g B k x a u : Nat) : Int :=
  ((B : Int) - ((k : Int) * (g : Int) ^ x % (N : Int))) ^ (a + u * x) % (N : Int)

/-- A prime group record as built in index.js: modulus and generator. -/
structure PrimeGroup where
  n : Nat
  g : Nat
  deriving DecidableEq, Repr

/-- index.js `primes`: the five 1024-bit groups, stored in source as Base64
and decoded with `b64tohex` and a hexadecimal `BigInteger` parse. -/
def primes : List PrimeGroup :=
  [ { n := hexToNat (b64tohex "ieJUvpnjDnS8CjQLseVMV6+bLPH2bNQLFVj1nVgSrCdErkLGUGhosubcgk6I7XoqM417RFquVMZvqgXMwggvoJyvy003qXK1bukOLlW1cRW6KLCzRBljPsMG6WeNbKqAatVX1MDHtc/d35B4q2ZJ/UXDzFCE2H/MbbJH7yylr2c="),
      g := hexToNat (b64tohex "Cw==") },
    { n := hexToNat (b64tohex "1XFmKuymyyba31KcEoWXHJco2eqggRxU9/ojMPPAkMaMRGw9WxIgEpfZGsxBOlY/ZciBaFWhbZd6gYK3AEYYEiW1N+noFDjBQyonPk3ZguElv9DgB8bv/bw9+U9o8DK1ScjJkrejEvoP2r9Bn6nANPd52l05digkV68v26fzb0c="),
      g := hexToNat (b64tohex "EQ==") },
    { n := hexToNat (b64tohex "iJWQ/xNLgaQM8A3XgQ4jmr4yOw4EQ8pcjQ2pJENouY9KfM5kjOGJdiOLnVYZqzDM6bk7wIVCBoO883dnWo4iXVvjsP1EPZ8fs9D2/u1bXtfcq7+ZWgvWGAmaiv9k2SAU8tq4W4ftseMg+CD1qtpGXylIxjWiR4GteZdgbFAS8Mc="),
      g := hexToNat (b64tohex "BQ==") },
    { n := hexToNat (b64tohex "5axg064+LI3qRPuYNbgpjlEqoFLpA6VMdJfHs4kJGo74Cl2o4E5JXwkceD26WxT6PzwhHZeqpDbJOgFHZ32OqLibrkDrLnL2pw3GDmoQ6lIPOLgUJjCmkrN35S+dXsFxMzXOLsZwz8JwojmjF+DwnRKCv+Uf49V378xvX7pg4hc="),
      g := hexToNat (b64tohex "BQ==") },
    { n := hexToNat (b64tohex "oOFpUEn0CdvWkCF3heD/etjalOiuis53GgbgIaNbh6JTKiFgs5qN1PuKXBIGhtQ9tmxj+JiZAUMzV5AylidbB1YN/l1DMq/7YZoD1nySkDwF0YS3aJMt+Q4S5PzHuoDazCI//ZzCL8nDG565Aunbgx+kQgr37dsYSdDY8rdOOVc="),
      g := hexToNat (b64tohex "BQ==") } ]

/-- The record assembled by index.js `decodeServerParamsString`. -/
structure ServerInfo where
  modulus : Nat
  generator : Nat
  salt : List Nat
  serverPublicKey : Nat
  loginToken : String
  deriving DecidableEq, Repr

/-- JS array indexing `primes[i]` for a possibly negative number:
out-of-bounds and negative indexes give `undefined` (`none`). -/
def primesAt (i : Int) : Option PrimeGroup :=
  if 0 ≤ i then primes.get? i.toNat else none

/-- index.js `decodeServerParamsString(str)`.  An empty parameter string
returns the empty object (`none`).  The `N` field is parsed with
`parseInt(params.N, 10)`; the guard in the source is `params.N >
primes.length` (with `NaN > len` being false), after which `primes[params.N]`
is read — an `undefined` element makes the `.n` access a `TypeError`. -/
def decodeServerParamsString (str : String) : Except JSError (Option ServerInfo) :=
  if str = "" then .ok none else
  match splitParamsString str with
  | .error e => .error e
  | .ok params =>
    if ¬(hasParam params "N" ∧ hasParam params "s" ∧
        hasParam params "B" ∧ hasParam params "ss") then
      .error JSError.MissingParamsError
    else
      let Nval := parseIntDecJS (getParam params "N")
      let sval := base64Decode (getParam params "s")
      let Bval := hexToNat (b64tohex (getParam params "B"))
      match Nval with
      | some n =>
        if n > (primes.length : Int) then .error JSError.IndexError
        else
          match primesAt n with
          | some p =>
            .ok (some { modulus := p.n, generator := p.g, salt := sval,
                        serverPublicKey := Bval, loginToken := getParam params "ss" })
          | none => .error JSError.TypeError
      | none =>
        -- primes[NaN] is undefined, so the `.n` read throws; the guard
        -- `NaN > primes.length` is false and does not fire.
        .error JSError.TypeError

/-- index.js `Permission` record parsed from one XML `Permission` element. -/
structure PermissionRec where
  name : String
  builtin : Bool
  id : Int
  deriving DecidableEq, Repr

/-- The permission mapping keyed by name. -/
def Permissions := List (String × PermissionRec)

/-- The process-wide authentication cache of index.js: `_loggedInUser` and
`cachedPermissions`. -/
structure AuthState where
  loggedInUser : String
  cachedPermissions : Option Permissions

/-- index.js `login` — the handler of the response to the proof request (the
second `.then`): status 200 stores the username, parses the permission
document into the cache and resolves `true`; status 403 throws
`'Login failed!'`; any other status falls through both branches, so the
handler returns `undefined` (`none`) and the state is untouched.  The XML
permission-document parse is an external capability passed as `parsePerms`. -/
def loginProofResponse (parsePerms : String → Permissions) (username : String)
    (st : AuthState) (status : Nat) (body : String) :
    Except JSError (AuthState × Option Bool) :=
  if status = 200 then
    .ok ({ loggedInUser := username, cachedPermissions := some (parsePerms body) }, some true)
  else if status = 403 then
    .error JSError.AuthenticationFailedError
  else
    .ok (st, none)

/-- index.js `logout()`: `hasCookie` is the session-cookie presence check and
`status` the status of the logout request (only consulted when a cookie is
present).  Returns the new cache state and the boolean the promise resolves
with. -/
def logout (hasCookie : Bool) (status : Nat) (st : AuthState) : AuthState × Bool :=
  if ¬hasCookie then
    ({ st with loggedInUser := "" }, true)
  else if status = 200 then
    ({ st with loggedInUser := "" }, true)
  else
    (st, false)

theorem natDigitsAux_congr : ∀ n f g : Nat, n ≤ f → n ≤ g →
    natDigitsAux f n = natDigitsAux g n := by
  intro n
  induction n using Nat.strong_induction_on with
  | _ n ih =>
    intro f g hf hg
    match n, f, g with
    | 0, f, g => cases f <;> cases g <;> rfl
    | m + 1, f' + 1, g' + 1 =>
      show natDigitsAux f' ((m + 1) / 256) ++ _ = natDigitsAux g' ((m + 1) / 256) ++ _
      have hq : (m + 1) / 256 < m + 1 := Nat.div_lt_self (Nat.succ_pos m) (by norm_num)
      rw [ih _ hq f' g' (by omega) (by omega)]

theorem natDigits_eq (n : Nat) :
    natDigits n = if n = 0 then [] else natDigits (n / 256) ++ [n % 256] := by
  match n with
  | 0 => rfl
  | m + 1 =>
    show natDigitsAux (m + 1) (m + 1) = _
    have hq : (m + 1) / 256 < m + 1 := Nat.div_lt_self (Nat.succ_pos m) (by norm_num)
    show natDigitsAux m ((m + 1) / 256) ++ _ = _
    rw [natDigitsAux_congr ((m + 1) / 256) m ((m + 1) / 256) (by omega) le_rfl]
    simp [natDigits]

theorem digitsVal_append (l : List Nat) (d : Nat) :
    digitsVal (l ++ [d]) = digitsVal l * 256 + d := by
  simp [digitsVal, List.foldl_append]

theorem natDigits_val (n : Nat) : digitsVal (natDigits n) = n := by
  induction n using Nat.strong_induction_on with
  | _ n ih =>
    rw [natDigits_eq]
    split
    · simp_all [digitsVal]
    · rename_i hn
      have hq : n / 256 < n := Nat.div_lt_self (Nat.pos_of_ne_zero hn) (by norm_num)
      rw [digitsVal_append, ih _ hq]
      omega

theorem natDigits_lt (n : Nat) : ∀ d ∈ natDigits n, d < 256 := by
  induction n using Nat.strong_induction_on with
  | _ n ih =>
    rw [natDigits_eq]
    split
    · simp
    · rename_i hn
      intro d hd
      rcases List.mem_append.mp hd with h | h
      · exact ih _ (Nat.div_lt_self (Nat.pos_of_ne_zero hn) (by norm_num)) d h
      · simp at h
        omega

theorem natDigits_head (n : Nat) (hn : 0 < n) :
    ∃ d ds, natDigits n = d :: ds ∧ 0 < d := by
  induction n using Nat.strong_induction_on with
  | _ n ih =>
    rw [natDigits_eq, if_neg (by omega)]
    by_cases h : n < 256
    · refine ⟨n % 256, [], ?_, ?_⟩
      · rw [Nat.div_eq_of_lt h, natDigits_eq]
        rfl
      · omega
    · have hq : n / 256 < n := Nat.div_lt_self hn (by norm_num)
      have hq0 : 0 < n / 256 := Nat.div_pos (by omega) (by norm_num)
      obtain ⟨d, ds, heq, hd⟩ := ih _ hq hq0
      exact ⟨d, ds ++ [n % 256], by rw [heq]; rfl, hd⟩

theorem natDigits_zero : natDigits 0 = [] := rfl

theorem sgnByte_mod (d : Nat) (h : d < 256) : ((sgnByte d) % 256).toNat = d := by
  unfold sgnByte
  split <;> omega

theorem bytesToNatI_map_sgn_aux (l : List Nat) : ∀ acc : Nat, (∀ d ∈ l, d < 256) →
    List.foldl (fun acc b => acc * 256 + (b % 256).toNat) acc (l.map sgnByte)
      = List.foldl (fun acc d => acc * 256 + d) acc l := by
  induction l with
  | nil => intro acc _; rfl
  | cons d ds ihl =>
    intro acc h
    simp only [List.map_cons, List.foldl_cons]
    rw [sgnByte_mod d (h d (by simp))]
    exact ihl _ (fun x hx => h x (by simp [hx]))

theorem bytesToNatI_map_sgn (l : List Nat) (h : ∀ d ∈ l, d < 256) :
    bytesToNatI (l.map sgnByte) = digitsVal l :=
  bytesToNatI_map_sgn_aux l 0 h

theorem bytesToNatI_cons_zero (l : List Int) : bytesToNatI (0 :: l) = bytesToNatI l := by
  simp [bytesToNatI]

theorem bytesToNatI_replicate_zero (k : Nat) (l : List Int) :
    bytesToNatI (List.replicate k 0 ++ l) = bytesToNatI l := by
  induction k with
  | zero => rfl
  | succ m ih =>
    rw [List.replicate_succ, List.cons_append, bytesToNatI_cons_zero]
    exact ih

theorem toByteArray_val (n : Nat) : bytesToNatI (toByteArray n) = n := by
  rcases h : natDigits n with _ | ⟨d, ds⟩
  · have hn : n = 0 := by
      have := natDigits_val n
      rw [h] at this
      simpa [digitsVal] using this.symm
    subst hn
    rfl
  · have hlt : ∀ x ∈ d :: ds, x < 256 := by rw [← h]; exact natDigits_lt n
    have hval : digitsVal (d :: ds) = n := by rw [← h]; exact natDigits_val n
    simp only [toByteArray, h]
    split
    · rw [List.singleton_append, bytesToNatI_cons_zero, bytesToNatI_map_sgn _ hlt, hval]
    · rw [List.nil_append, bytesToNatI_map_sgn _ hlt, hval]

theorem toByteArray_shape (n : Nat) :
    ((toByteArray n).length = natByteLength n ∧ bytesToNatI (toByteArray n) = n) ∨
    (∃ rest, toByteArray n = 0 :: rest ∧ rest.length = natByteLength n ∧
      bytesToNatI rest = n) := by
  rcases h : natDigits n with _ | ⟨d, ds⟩
  · have hn : n = 0 := by
      have := natDigits_val n
      rw [h] at this
      simpa [digitsVal] using this.symm
    subst hn
    right
    exact ⟨[], rfl, rfl, rfl⟩
  · have hlt : ∀ x ∈ d :: ds, x < 256 := by rw [← h]; exact natDigits_lt n
    have hval : digitsVal (d :: ds) = n := by rw [← h]; exact natDigits_val n
    have hlen : natByteLength n = (d :: ds).length := by
      rw [natByteLength, h]
    by_cases hd : 128 ≤ d
    · right
      refine ⟨(d :: ds).map sgnByte, ?_, ?_, ?_⟩
      · simp only [toByteArray, h, if_pos hd, List.singleton_append]
      · simp [hlen]
      · rw [bytesToNatI_map_sgn _ hlt, hval]
    · left
      constructor
      · simp only [toByteArray, h, if_neg hd, List.nil_append]
        simp [hlen]
      · exact toByteArray_val n

theorem toByteArray_meat (n : Nat) (hn : 0 < n) :
    ∃ d ds pre, (pre = ([] : List Int) ∨ pre = [0]) ∧
      toByteArray n = pre ++ sgnByte d :: ds ∧ sgnByte d ≠ 0 ∧
      (sgnByte d :: ds).length = natByteLength n := by
  obtain ⟨d, ds0, h, hd⟩ := natDigits_head n hn
  have hlt : d < 256 := natDigits_lt n d (by rw [h]; simp)
  have hsgn : sgnByte d ≠ 0 := by
    unfold sgnByte
    split <;> omega
  have hlen : (sgnByte d :: ds0.map sgnByte).length = natByteLength n := by
    rw [natByteLength, h]
    simp
  by_cases hd128 : 128 ≤ d
  · exact ⟨d, ds0.map sgnByte, [0], Or.inr rfl,
      by simp only [toByteArray, h, if_pos hd128, List.map_cons], hsgn, hlen⟩
  · exact ⟨d, ds0.map sgnByte, [], Or.inl rfl,
      by simp only [toByteArray, h, if_neg hd128, List.map_cons], hsgn, hlen⟩

theorem toByteArray_length_le (n : Nat) :
    natByteLength n ≤ (toByteArray n).length ∧
    (toByteArray n).length ≤ natByteLength n + 1 := by
  rcases toByteArray_shape n with ⟨h, _⟩ | ⟨rest, heq, hlen, _⟩
  · omega
  · rw [heq]
    simp [hlen]

/-- C8: for every nonnegative integer and width at least its natural byte
length, `bigIntegerToBytes` returns exactly `width` zero-left-padded bytes
whose big-endian value round-trips to the integer; a width below the
nonzero-byte length throws TruncationError; a smaller width whose dropped
leading bytes are all zero succeeds. -/
theorem c8_int_to_fixed_bytes : ∀ n w : Nat,
    (natByteLength n ≤ w →
      ∃ bs, bigIntegerToBytes n w = .ok bs ∧ bs.length = w ∧ bytesToNatI bs = n) ∧
    (0 < n → w < natByteLength n →
      bigIntegerToBytes n w = .error JSError.TruncationError) ∧
    (w < (toByteArray n).length →
      ((toByteArray n).take ((toByteArray n).length - w)).all (· == 0) = true →
      ∃ bs, bigIntegerToBytes n w = .ok bs) := by
  intro n w
  refine ⟨?_, ?_, ?_⟩
  · intro hw
    rcases Nat.lt_trichotomy (toByteArray n).length w with hlt | heq | hgt
    · refine ⟨List.replicate (w - (toByteArray n).length) 0 ++ toByteArray n, ?_, ?_, ?_⟩
      · simp only [bigIntegerToBytes]
        rw [if_neg (by omega), if_pos hlt]
      · simp
        omega
      · rw [bytesToNatI_replicate_zero]
        exact toByteArray_val n
    · refine ⟨toByteArray n, ?_, heq, toByteArray_val n⟩
      simp only [bigIntegerToBytes]
      rw [if_pos heq]
    · -- the stored form is one byte longer than the width: the extra byte is
      -- the jsbn sign byte 0, which the trim path removes
      rcases toByteArray_shape n with ⟨hlen, _⟩ | ⟨rest, heqB, hlen, hval⟩
      · omega
      · have hL : (toByteArray n).length = natByteLength n + 1 := by rw [heqB]; simp [hlen]
        have hw' : w = natByteLength n := by omega
        refine ⟨rest, ?_, by omega, hval⟩
        simp only [bigIntegerToBytes]
        rw [if_neg (by omega), if_neg (by omega)]
        have htake : (toByteArray n).take ((toByteArray n).length - w) = [0] := by
          rw [heqB]
          have : (toByteArray n).length - w = 1 := by omega
          rw [heqB] at this
          rw [this]
          rfl
        have hdrop : (toByteArray n).drop ((toByteArray n).length - w) = rest := by
          rw [heqB]
          have : (toByteArray n).length - w = 1 := by omega
          rw [heqB] at this
          rw [this]
          rfl
        rw [htake, hdrop]
        rfl
  · intro hn hw
    obtain ⟨d, ds, pre, hpre, heqB, hd0, hlen⟩ := toByteArray_meat n hn
    have hL : natByteLength n ≤ (toByteArray n).length := (toByteArray_length_le n).1
    have hd0' : (sgnByte d == 0) = false := by
      simpa using hd0
    simp only [List.length_cons] at hlen
    simp only [bigIntegerToBytes]
    rw [if_neg (by omega), if_neg (by omega)]
    have hfalse : ((toByteArray n).take ((toByteArray n).length - w)).all (· == 0) = false := by
      rcases hpre with h | h <;> subst h
      · simp only [List.nil_append] at heqB
        rw [heqB]
        simp only [List.length_cons]
        rw [show ds.length + 1 - w = (ds.length + 1 - w - 1) + 1 from by omega,
          List.take_succ_cons, List.all_cons, hd0']
        rfl
      · simp only [List.singleton_append] at heqB
        rw [heqB]
        simp only [List.length_cons]
        rw [show ds.length + 1 + 1 - w = ((ds.length + 1 - w - 1) + 1) + 1 from by omega,
          List.take_succ_cons, List.take_succ_cons, List.all_cons, List.all_cons, hd0']
        simp
    rw [hfalse]
    rfl
  · intro hw hzero
    simp only [bigIntegerToBytes]
    rw [if_neg (by omega), if_neg (by omega), hzero]
    exact ⟨_, rfl⟩

/-- C8 witness: width 4 for the two-byte integer 258 round-trips; width 1
throws for 258 but succeeds for 128 (whose dropped jsbn sign byte is zero). -/
theorem c8_witness :
    natByteLength 258 ≤ 4 ∧
    (∃ bs, bigIntegerToBytes 258 4 = .ok bs ∧ bs.length = 4 ∧ bytesToNatI bs = 258) ∧
    bigIntegerToBytes 258 1 = .error JSError.TruncationError ∧
    (∃ bs, bigIntegerToBytes 128 1 = .ok bs) :=
  ⟨by decide, (c8_int_to_fixed_bytes 258 4).1 (by decide),
    (c8_int_to_fixed_bytes 258 1).2.1 (by decide) (by decide),
    (c8_int_to_fixed_bytes 128 1).2.2 (by decide) (by decide)⟩

theorem Sc_eq_Ss (N g kv xv a b u : Nat) (hN : 0 < N) :
    SRP.Sc N g ((kv * (g ^ xv % N) + g ^ b % N) % N) kv xv a u
      = SRP.Ss N (g ^ a % N) (g ^ xv % N) u b := by
  unfold SRP.Sc SRP.Ss
  have hgx : g ^ xv % N < N := Nat.mod_lt _ hN
  have hbase : ((kv * (g ^ xv % N) + g ^ b % N) % N + kv * (N - g ^ xv % N) % N)
      ≡ g ^ b % N [MOD N] := by
    have h1 : ((kv * (g ^ xv % N) + g ^ b % N) % N + kv * (N - g ^ xv % N) % N)
        ≡ (kv * (g ^ xv % N) + g ^ b % N) + kv * (N - g ^ xv % N) [MOD N] :=
      (Nat.mod_modEq _ N).add (Nat.mod_modEq _ N)
    have h2 : (kv * (g ^ xv % N) + g ^ b % N) + kv * (N - g ^ xv % N)
        = g ^ b % N + kv * N := by
      have h3 : kv * (g ^ xv % N) + kv * (N - g ^ xv % N) = kv * N := by
        rw [← Nat.mul_add, Nat.add_sub_cancel' (le_of_lt hgx)]
      calc kv * (g ^ xv % N) + g ^ b % N + kv * (N - g ^ xv % N)
          = g ^ b % N + (kv * (g ^ xv % N) + kv * (N - g ^ xv % N)) := by ring
        _ = g ^ b % N + kv * N := by rw [h3]
    have h4 : g ^ b % N + kv * N ≡ g ^ b % N + 0 [MOD N] :=
      (Nat.ModEq.refl _).add ((Nat.modEq_zero_iff_dvd).mpr (dvd_mul_left N kv))
    calc ((kv * (g ^ xv % N) + g ^ b % N) % N + kv * (N - g ^ xv % N) % N)
        ≡ (kv * (g ^ xv % N) + g ^ b % N) + kv * (N - g ^ xv % N) [MOD N] := h1
      _ = g ^ b % N + kv * N := h2
      _ ≡ g ^ b % N + 0 [MOD N] := h4
      _ = g ^ b % N := by ring
  have hrhs : ((g ^ a % N) * ((g ^ xv % N) ^ u % N))
      ≡ g ^ a * (g ^ xv) ^ u [MOD N] :=
    (Nat.mod_modEq _ N).mul ((Nat.mod_modEq (g ^ xv) N).pow u |>.trans
      (Nat.ModEq.refl _) |> fun h => (Nat.mod_modEq _ N).trans h)
  calc ((kv * (g ^ xv % N) + g ^ b % N) % N + kv * (N - g ^ xv % N) % N) ^ (a + u * xv) % N
      = (g ^ b % N) ^ (a + u * xv) % N := hbase.pow _
    _ = (g ^ b) ^ (a + u * xv) % N := by rw [← Nat.pow_mod]
    _ = (g ^ a * (g ^ xv) ^ u) ^ b % N := by
        rw [← pow_mul, ← pow_mul]
        ring_nf
    _ = ((g ^ a % N) * ((g ^ xv % N) ^ u % N)) ^ b % N := (hrhs.pow b).symm

theorem startLogin_ok (SHA1 : JSData → String) (N g v : Nat) (s : List Int) (b : Nat)
    (srv : ServerState) (chal : Challenge)
    (h : SRP.startLogin SHA1 N g v s b = .ok (srv, chal)) :
    ∃ kv, SRP.k SHA1 N g = .ok kv ∧
      srv = ⟨N, g, s, b, (kv * v + g ^ b % N) % N, v⟩ ∧
      chal = ⟨N, g, s, (kv * v + g ^ b % N) % N⟩ := by
  unfold SRP.startLogin SRP.B at h
  split at h
  · exact absurd h (by simp)
  · rename_i e heq
    split at heq
    · exact absurd heq (by simp)
    · rename_i kv hk
      refine ⟨kv, hk, ?_, ?_⟩ <;> simp_all

theorem genPKP_ok (SHA1 : JSData → String) (st : ClientState) (a : Nat)
    (res : ClientResult) (Kc : List Int)
    (h : SRP.genPKP SHA1 st a = .ok (res, Kc)) :
    ∃ uval kval,
      SRP.u SHA1 (SRP.A st.modulus st.generator a) st.serverPublicKey = .ok uval ∧
      SRP.k SHA1 st.modulus st.generator = .ok kval ∧
      res.clientPublicKey = SRP.A st.modulus st.generator a ∧
      SRP.K SHA1 (SRP.Sc st.modulus st.generator st.serverPublicKey kval
        (SRP.x SHA1 st.salt st.username st.password) a uval) = .ok Kc := by
  unfold SRP.genPKP at h
  split at h
  · exact absurd h (by simp)
  · split at h
    · exact absurd h (by simp)
    · rename_i uval hu
      split at h
      · exact absurd h (by simp)
      · split at h
        · exact absurd h (by simp)
        · rename_i kval hk
          split at h
          · exact absurd h (by simp)
          · split at h
            · exact absurd h (by simp)
            · rename_i Kval hK
              split at h
              · exact absurd h (by simp)
              · rename_i Mval hM
                rw [Except.ok.injEq, Prod.mk.injEq] at h
                obtain ⟨h1, h2⟩ := h
                subst h2
                exact ⟨uval, kval, hu, hk, by rw [← h1], hK⟩

theorem finishLogin_ok (SHA1 : JSData → String) (st : ServerState)
    (clientPublicKey : Nat) (clientProof : String) (proof : String) (Ks : List Int)
    (h : SRP.finishLogin SHA1 st clientPublicKey clientProof = .ok (proof, Ks)) :
    ∃ uval, SRP.u SHA1 clientPublicKey st.serverPublicKey = .ok uval ∧
      SRP.K SHA1 (SRP.Ss st.modulus clientPublicKey st.verifier uval
        st.serverPrivateKey) = .ok Ks := by
  unfold SRP.finishLogin at h
  split at h
  · exact absurd h (by simp)
  · rename_i uval hu
    split at h
    · exact absurd h (by simp)
    · split at h
      · exact absurd h (by simp)
      · rename_i Kval hK
        split at h
        · exact absurd h (by simp)
        · rename_i Mval hM
          refine ⟨uval, hu, ?_⟩
          simp_all

/-- C1: end-to-end key agreement.  For every digest function, identity,
prime group, salt and ephemeral secrets, if the server's stored verifier is
`v = g^x mod N` for the `x` derived from that salt, username and password,
then the session key the Client stores in `generatePublicKeyAndProof` and
the session key the Server stores in `finishLogin` (run on the client's
public key and proof) are byte-identical. -/
theorem c1_end_to_end_key_agreement
    (SHA1 : JSData → String) (username password : String)
    (N g v a b : Nat) (s : List Int) (hN : 0 < N)
    (hv : v = SRP.v N g (SRP.x SHA1 s username password))
    (srv : ServerState) (chal : Challenge)
    (hstart : SRP.startLogin SHA1 N g v s b = .ok (srv, chal))
    (res : ClientResult) (Kc : List Int)
    (hgen : SRP.genPKP SHA1
      ⟨username, password, chal.modulus, chal.generator, chal.salt,
        chal.serverPublicKey⟩ a = .ok (res, Kc))
    (sproof : String) (Ks : List Int)
    (hfin : SRP.finishLogin SHA1 srv res.clientPublicKey res.clientProof
      = .ok (sproof, Ks)) :
    Kc = Ks := by
  obtain ⟨kv, hk, hsrv, hchal⟩ := startLogin_ok SHA1 N g v s b srv chal hstart
  subst hsrv hchal
  obtain ⟨uval, kval, hu, hk', hres, hK⟩ := genPKP_ok SHA1 _ a res Kc hgen
  simp only at hu hk' hres hK
  rw [hk] at hk'
  rw [Except.ok.injEq] at hk'
  subst hk'
  obtain ⟨uval2, hu2, hKs⟩ := finishLogin_ok SHA1 _ _ _ sproof Ks hfin
  simp only [hres] at hu2 hKs
  rw [hu] at hu2
  rw [Except.ok.injEq] at hu2
  subst hu2
  rw [hv] at hK hKs
  unfold SRP.v at hK hKs
  rw [Sc_eq_Ss N g kv (SRP.x SHA1 s username password) a b uval hN] at hK
  have hA : SRP.A N g a = g ^ a % N := rfl
  rw [hA] at hKs
  rw [hK] at hKs
  rw [Except.ok.injEq] at hKs
  exact hKs


/-- C1 witness: the full handshake on the toy group N = 7, g = 3 with the
constant digest; both stored session keys come out as the two-byte key
`[1, 1]`. -/
theorem c1_witness :
    SRP.startLogin SHA1c 7 3 3 [1] 1 = .ok (⟨7, 3, [1], 1, 6, 3⟩, ⟨7, 3, [1], 6⟩) ∧
    SRP.genPKP SHA1c ⟨"alice", "pw", 7, 3, [1], 6⟩ 1 = .ok (⟨3, "01"⟩, ([1, 1] : List Int)) ∧
    SRP.finishLogin SHA1c ⟨7, 3, [1], 1, 6, 3⟩ 3 "01" = .ok ("01", ([1, 1] : List Int)) ∧
    ([1, 1] : List Int) = [1, 1] :=
  ⟨by decide, by decide, by decide,
    c1_end_to_end_key_agreement SHA1c "alice" "pw" 7 3 3 1 1 [1] (by decide) (by decide)
      ⟨7, 3, [1], 1, 6, 3⟩ ⟨7, 3, [1], 6⟩ (by decide) ⟨3, "01"⟩ [1, 1] (by decide)
      "01" [1, 1] (by decide)⟩

/-- C2: for all arguments with a positive modulus, the client shared-secret
computation of lib/SRP.js, `(B + (k·(N − g^x mod N) mod N))^(a+u·x) mod N`,
equals the spec's formula `(B − k·g^x mod N)^(a+u·x) mod N` read over the
integers. -/
theorem c2_client_shared_secret_matches_spec (N g B k x a u : Nat) (hN : 0 < N) :
    ((SRP.Sc N g B k x a u : Nat) : Int) = S_client_spec N g B k x a u := by
  unfold SRP.Sc S_client_spec
  have hgx : g ^ x % N ≤ N := le_of_lt (Nat.mod_lt _ hN)
  push_cast [Nat.cast_sub hgx]
  have hX : ((B : Int) + ((k : Int) * ((N : Int) - (g : Int) ^ x % (N : Int)))
        % (N : Int))
      ≡ (B : Int) - ((k : Int) * (g : Int) ^ x % (N : Int)) [ZMOD (N : Int)] := by
    have h1 : ((B : Int) + ((k : Int) * ((N : Int) - (g : Int) ^ x % (N : Int)))
          % (N : Int))
        ≡ (B : Int) + (k : Int) * ((N : Int) - (g : Int) ^ x % (N : Int))
          [ZMOD (N : Int)] :=
      (Int.ModEq.refl _).add (Int.mod_modEq _ _)
    have h2 : (B : Int) + (k : Int) * ((N : Int) - (g : Int) ^ x % (N : Int))
        = (B : Int) - (k : Int) * ((g : Int) ^ x % (N : Int)) + (k : Int) * (N : Int) := by
      ring
    have h3 : (B : Int) - (k : Int) * ((g : Int) ^ x % (N : Int)) + (k : Int) * (N : Int)
        ≡ (B : Int) - (k : Int) * ((g : Int) ^ x % (N : Int)) + 0 [ZMOD (N : Int)] :=
      (Int.ModEq.refl _).add (Int.modEq_zero_iff_dvd.mpr (dvd_mul_left _ _))
    have h4 : (B : Int) - (k : Int) * ((g : Int) ^ x % (N : Int))
        ≡ (B : Int) - (k : Int) * (g : Int) ^ x [ZMOD (N : Int)] :=
      (Int.ModEq.refl _).sub ((Int.mod_modEq _ _).mul_left _)
    have h5 : (B : Int) - (k : Int) * (g : Int) ^ x
        ≡ (B : Int) - ((k : Int) * (g : Int) ^ x % (N : Int)) [ZMOD (N : Int)] :=
      (Int.ModEq.refl _).sub (Int.mod_modEq _ _).symm
    calc ((B : Int) + ((k : Int) * ((N : Int) - (g : Int) ^ x % (N : Int))) % (N : Int))
        ≡ (B : Int) + (k : Int) * ((N : Int) - (g : Int) ^ x % (N : Int))
          [ZMOD (N : Int)] := h1
      _ = (B : Int) - (k : Int) * ((g : Int) ^ x % (N : Int)) + (k : Int) * (N : Int) := h2
      _ ≡ (B : Int) - (k : Int) * ((g : Int) ^ x % (N : Int)) + 0 [ZMOD (N : Int)] := h3
      _ = (B : Int) - (k : Int) * ((g : Int) ^ x % (N : Int)) := by ring
      _ ≡ (B : Int) - (k : Int) * (g : Int) ^ x [ZMOD (N : Int)] := h4
      _ ≡ (B : Int) - ((k : Int) * (g : Int) ^ x % (N : Int)) [ZMOD (N : Int)] := h5
  exact hX.pow (a + u * x)

/-- C2 witness at N = 7, g = 3, B = 6, k = x = a = u = 1. -/
theorem c2_witness :
    (0 : Nat) < 7 ∧ ((SRP.Sc 7 3 6 1 1 1 1 : Nat) : Int) = S_client_spec 7 3 6 1 1 1 1 :=
  ⟨by decide, c2_client_shared_secret_matches_spec 7 3 6 1 1 1 1 (by decide)⟩

/-- C3: `generatePublicKeyAndProof` rejects `B mod N == 0` with the precheck
error before computing anything else (for any digest outcome); otherwise it
computes a, A, u (aborting on u = 0), k (aborting on k = 0), x, S_client, K
and M_client in dependency order, stores K as the shared key and returns the
client public key A with the proof M_client. -/
theorem c3_generate_public_key_and_proof
    (SHA1 : JSData → String) (st : ClientState) (a : Nat) :
    (st.serverPublicKey % st.modulus = 0 →
      SRP.genPKP SHA1 st a = .error JSError.PrecheckFailedError) ∧
    (st.serverPublicKey % st.modulus ≠ 0 →
      ∀ uval, SRP.u SHA1 (SRP.A st.modulus st.generator a) st.serverPublicKey = .ok uval →
        (uval = 0 → SRP.genPKP SHA1 st a = .error JSError.PrecheckFailedError) ∧
        (uval ≠ 0 →
          ∀ kval, SRP.k SHA1 st.modulus st.generator = .ok kval →
            (kval = 0 → SRP.genPKP SHA1 st a = .error JSError.PrecheckFailedError) ∧
            (kval ≠ 0 →
              ∀ Kval, SRP.K SHA1 (SRP.Sc st.modulus st.generator st.serverPublicKey kval
                  (SRP.x SHA1 st.salt st.username st.password) a uval) = .ok Kval →
                ∀ Mval, SRP.Mc SHA1 st.modulus st.generator st.username st.salt
                    (SRP.A st.modulus st.generator a) st.serverPublicKey Kval = .ok Mval →
                  SRP.genPKP SHA1 st a
                    = .ok (⟨SRP.A st.modulus st.generator a, Mval⟩, Kval)))) := by
  constructor
  · intro hB
    unfold SRP.genPKP
    rw [if_pos hB]
  · intro hB uval hu
    constructor
    · intro h0
      simp only [SRP.genPKP, if_neg hB, hu, h0, if_pos]
    · intro h0 kval hk
      constructor
      · intro hk0
        simp only [SRP.genPKP, if_neg hB, hu, if_neg h0, hk, hk0, if_pos]
      · intro hk0 Kval hK Mval hM
        simp only [SRP.genPKP, if_neg hB, hu, if_neg h0, hk, if_neg hk0, hK, hM]

/-- C3 witness: with the constant digest on the toy group, a state whose
serverPublicKey is divisible by the modulus is rejected, and the normal
state returns the public key and proof while storing the session key. -/
theorem c3_witness :
    SRP.genPKP SHA1c ⟨"alice", "pw", 7, 3, [1], 7⟩ 1 = .error JSError.PrecheckFailedError ∧
    SRP.genPKP SHA1c ⟨"alice", "pw", 7, 3, [1], 6⟩ 1 = .ok (⟨3, "01"⟩, ([1, 1] : List Int)) :=
  ⟨(c3_generate_public_key_and_proof SHA1c ⟨"alice", "pw", 7, 3, [1], 7⟩ 1).1 (by decide),
    ((((c3_generate_public_key_and_proof SHA1c ⟨"alice", "pw", 7, 3, [1], 6⟩ 1).2
      (by decide) 1 (by decide)).2 (by decide) 1 (by decide)).2
      (by decide) [1, 1] (by decide)) "01" (by decide)⟩

/-- C4: the bounds guard in `decodeServerParamsString` is `params.N >
primes.length`, so the out-of-range index 5 (the registry has indexes 0..4)
passes the guard and the code then reads property `n` of the `undefined`
element `primes[5]` — a TypeError, not the IndexError the spec requires;
only indexes strictly greater than 5 hit the IndexError path, while an
in-range index still succeeds. -/
theorem c4_index_equal_length_is_type_error :
    decodeServerParamsString "N=5,s=AA==,B=AQ==,ss=x" = .error JSError.TypeError ∧
    JSError.TypeError ≠ JSError.IndexError ∧
    decodeServerParamsString "N=6,s=AA==,B=AQ==,ss=x" = .error JSError.IndexError ∧
    (∃ si, decodeServerParamsString "N=4,s=AA==,B=AQ==,ss=x" = .ok (some si)) :=
  ⟨by decide, by decide, by decide, ⟨_, rfl⟩⟩

/-- C6 counterexample: a status outside the two handled branches (here 500)
makes the proof-response handler resolve with no value, leaving the cache
untouched — it does not fail with UnknownStatusError as the claim states. -/
theorem c6_counterexample :
    loginProofResponse (fun _ => ([] : Permissions)) "alice" ⟨"", none⟩ 500 ""
      = .ok (⟨"", none⟩, none) ∧
    loginProofResponse (fun _ => ([] : Permissions)) "alice" ⟨"", none⟩ 500 ""
      ≠ .error JSError.UnknownStatusError := by
  constructor
  · rfl
  · intro h
    rw [show loginProofResponse (fun _ => ([] : Permissions)) "alice" ⟨"", none⟩ 500 ""
      = .ok (⟨"", none⟩, none) from rfl] at h
    exact Except.noConfusion h

/-- C6 amended: in login's challenge branch the proof-request response has
exactly these outcomes: status 200 parses the permission document into the
cache, sets the logged-in user and resolves true; status 403 fails with
AuthenticationFailedError; every other status is unhandled — the handler
returns no value and leaves the cache unchanged (no UnknownStatusError is
raised). -/
theorem c6_amended_proof_response
    (parsePerms : String → Permissions) (username : String) (st : AuthState)
    (status : Nat) (body : String) :
    (status = 200 → loginProofResponse parsePerms username st status body
      = .ok ({ loggedInUser := username,
               cachedPermissions := some (parsePerms body) }, some true)) ∧
    (status = 403 → loginProofResponse parsePerms username st status body
      = .error JSError.AuthenticationFailedError) ∧
    (status ≠ 200 → status ≠ 403 →
      loginProofResponse parsePerms username st status body = .ok (st, none)) := by
  refine ⟨?_, ?_, ?_⟩
  · intro h
    simp [loginProofResponse, h]
  · intro h
    subst h
    simp [loginProofResponse]
  · intro h1 h2
    simp [loginProofResponse, h1, h2]

/-- C6 witness: the amended characterization evaluated at statuses 500 and
403 on a concrete cache state. -/
theorem c6_witness :
    ((500 : Nat) ≠ 200 ∧ (500 : Nat) ≠ 403 ∧
      loginProofResponse (fun _ => ([] : Permissions)) "bob" ⟨"", none⟩ 500 "x"
        = .ok (⟨"", none⟩, none)) ∧
    loginProofResponse (fun _ => ([] : Permissions)) "bob" ⟨"", none⟩ 403 "x"
      = .error JSError.AuthenticationFailedError :=
  ⟨⟨by decide, by decide,
    (c6_amended_proof_response (fun _ => ([] : Permissions)) "bob" ⟨"", none⟩ 500 "x").2.2
      (by decide) (by decide)⟩,
    (c6_amended_proof_response (fun _ => ([] : Permissions)) "bob" ⟨"", none⟩ 403 "x").2.1 rfl⟩

/-- C7 counterexample: logging out without a session cookie leaves the
cached permission set in place — the claim that the whole authentication
cache (including permissions) is cleared is false. -/
theorem c7_counterexample :
    (logout false 0 ⟨"alice", some [("p", ⟨"p", false, 1⟩)]⟩).1.cachedPermissions
      = some [("p", ⟨"p", false, 1⟩)] ∧
    some [("p", (⟨"p", false, 1⟩ : PermissionRec))] ≠ (none : Option Permissions) := by
  constructor
  · rfl
  · intro h
    exact Option.noConfusion h

/-- C7 amended: logout clears only the logged-in username.  With no session
cookie it clears the username, leaves the cached permission set unchanged
and succeeds; a success-status response does the same; any other status
reports failure and leaves every field of the cache unchanged. -/
theorem c7_amended_logout (st : AuthState) (status : Nat) :
    ((logout false status st).1.loggedInUser = "" ∧
      (logout false status st).1.cachedPermissions = st.cachedPermissions ∧
      (logout false status st).2 = true) ∧
    (status = 200 →
      (logout true status st).1.loggedInUser = "" ∧
      (logout true status st).1.cachedPermissions = st.cachedPermissions ∧
      (logout true status st).2 = true) ∧
    (status ≠ 200 → logout true status st = (st, false)) := by
  refine ⟨⟨rfl, rfl, rfl⟩, ?_, ?_⟩
  · intro h
    subst h
    exact ⟨rfl, rfl, rfl⟩
  · intro h
    simp [logout, h]

/-- C7 witness: the amended statement evaluated at a concrete cache state,
with no cookie and with a failing logout response. -/
theorem c7_witness :
    (logout false 500 ⟨"alice", some []⟩).1.cachedPermissions = some [] ∧
    ((500 : Nat) ≠ 200 ∧ logout true 500 ⟨"alice", some []⟩ = (⟨"alice", some []⟩, false)) :=
  ⟨(c7_amended_logout ⟨"alice", some []⟩ 500).1.2.1,
    ⟨by decide, (c7_amended_logout ⟨"alice", some []⟩ 500).2.2 (by decide)⟩⟩

theorem hex4_zero : hex4 0 = ['0', '0', '0', '0'] := by decide

theorem xorChunks_self (l : List Char) (h : l.length % 4 = 0) :
    xorChunks l l = List.replicate l.length '0' := by
  match l with
  | [] => rfl
  | [a1] => simp at h
  | [a1, a2] => simp at h
  | [a1, a2, a3] => simp at h
  | a1 :: a2 :: a3 :: a4 :: r =>
    have hr : r.length % 4 = 0 := by
      simp only [List.length_cons] at h
      omega
    rw [show xorChunks (a1 :: a2 :: a3 :: a4 :: r) (a1 :: a2 :: a3 :: a4 :: r)
        = hex4 (((parseIntHexJS [a1, a2, a3, a4]).getD 0)
            ^^^ ((parseIntHexJS ((a1 :: a2 :: a3 :: a4 :: r).take 4)).getD 0))
          ++ xorChunks r ((a1 :: a2 :: a3 :: a4 :: r).drop 4) from rfl]
    rw [show (a1 :: a2 :: a3 :: a4 :: r).take 4 = [a1, a2, a3, a4] from rfl]
    rw [show (a1 :: a2 :: a3 :: a4 :: r).drop 4 = r from rfl]
    rw [Nat.xor_self, hex4_zero, xorChunks_self r hr]
    rw [show (a1 :: a2 :: a3 :: a4 :: r).length = 4 + r.length by
      simp only [List.length_cons]; omega]
    rw [List.replicate_add]
    rfl
termination_by l.length

/-- C9: XOR of a hex digest string with itself gives a string of the same
length made entirely of zero characters (a digest string being 16-bit
aligned, i.e. of length divisible by four), and two strings of different
lengths fail with LengthMismatchError. -/
theorem c9_xor_digests :
    (∀ a : String, a.length % 4 = 0 →
      xorHashStrings a a = .ok ⟨List.replicate a.length '0'⟩) ∧
    (∀ a b : String, a.length ≠ b.length →
      xorHashStrings a b = .error JSError.LengthMismatchError) := by
  constructor
  · intro a h
    unfold xorHashStrings
    rw [if_neg (by omega)]
    rw [show a.length = a.data.length from rfl] at h
    rw [xorChunks_self a.data h]
    rfl
  · intro a b h
    unfold xorHashStrings
    rw [if_pos h]

/-- C9 witness: the four-character digest chunk against itself, and a
two-against-one length mismatch. -/
theorem c9_witness :
    ("abcd".length % 4 = 0 ∧ xorHashStrings "abcd" "abcd" = .ok "0000") ∧
    ("ab".length ≠ "a".length ∧
      xorHashStrings "ab" "a" = .error JSError.LengthMismatchError) :=
  ⟨⟨by decide, c9_xor_digests.1 "abcd" (by decide)⟩,
    ⟨by decide, c9_xor_digests.2 "ab" "a" (by decide)⟩⟩

theorem byteStringToByteArrayGo_spec (s : String) (i : Nat) (ar : List String) :
    byteStringToByteArrayGo s i ar
      = ar ++ (List.range (s.length - i)).map (fun j => fromCharCode (i + j)) := by
  rw [byteStringToByteArrayGo]
  split
  · rename_i hlt
    rw [byteStringToByteArrayGo_spec s (i + 1) (ar ++ [fromCharCode i])]
    rw [show s.length - i = (s.length - (i + 1)) + 1 from by omega]
    rw [List.range_succ_eq_map]
    simp only [List.map_cons, List.map_map, List.append_assoc, List.cons_append,
      List.nil_append, Nat.add_zero]
    have harg : ((fun j => fromCharCode (i + j)) ∘ Nat.succ)
        = fun j => fromCharCode (i + 1 + j) := by
      funext j
      simp only [Function.comp_apply]
      congr 1
      omega
    rw [harg]
  · rename_i hge
    rw [show s.length - i = 0 from by omega]
    simp
termination_by s.length - i

/-- C10: `byteStringToByteArray` ignores the characters of its argument: it
returns the list `[fromCharCode 0, …, fromCharCode (n−1)]` built from the
successive loop indexes, so its result depends only on the length of the
input string. -/
theorem c10_byte_string_to_byte_array :
    (∀ s : String, byteStringToByteArray s
      = (List.range s.length).map (fun i => String.singleton (Char.ofNat i))) ∧
    (∀ s t : String, s.length = t.length →
      byteStringToByteArray s = byteStringToByteArray t) := by
  have hclosed : ∀ s : String, byteStringToByteArray s
      = (List.range s.length).map (fun i => String.singleton (Char.ofNat i)) := by
    intro s
    unfold byteStringToByteArray
    rw [byteStringToByteArrayGo_spec s 0 []]
    simp [fromCharCode]
  exact ⟨hclosed, fun s t h => by rw [hclosed, hclosed, h]⟩

/-- C10 witness: two different two-character strings yield the same array. -/
theorem c10_witness :
    "ab".length = "xy".length ∧ byteStringToByteArray "ab" = byteStringToByteArray "xy" :=
  ⟨by decide, c10_byte_string_to_byte_array.2 "ab" "xy" (by decide)⟩
